import Mathlib

/-!
Shallow embedding of the sleep-analysis engine
(`src/sleep_analysis/sleep_analyzer.py` and
`src/sleep_analysis/hypothesis_test.py`).

Decibel levels and the sampling interval are embedded as rationals (`ℚ`);
the Python floats are modelled exactly.  A pandas/numpy `NaN` produced by a
fallible computation (sample standard deviation of fewer than two values)
is modelled as `Option.none`.  Divisions that Python performs on possibly
zero denominators inside always-computed formulas keep Lean's total `ℚ`
division (`x / 0 = 0`), standing in for the junk `NaN` values the code
stores in those fields; the theorems below only read those fields under
the hypotheses where the code produces real numbers, except where a claim
is precisely about the junk path.
-/

namespace SleepAnalysis

/-- Default noise threshold from `SleepAnalyzer.__init__(threshold_db=40)`. -/
def defaultThresholdDb : ℚ := 40

/-- Default smoothing window from `preprocess_data(window_size=5)`. -/
def defaultSmoothingWindow : ℕ := 5

/-- Default H2 significance threshold from
`test_hypothesis2(significance_threshold=5.0)`. -/
def defaultSignificance : ℚ := 5

/-! ## Preprocessing (`SleepAnalyzer.preprocess_data`) -/

/-- Index window of pandas `rolling(window=w, center=True, min_periods=1)`
at output position `i`: positions `max 0 (i - (w-1)/2)` through
`min (n-1) (i + w/2)` (pandas centers a fixed window with
`offset = (w - 1) // 2`).  Returned as the sublist of `db` it covers;
`min_periods=1` holds because the window always contains position `i`. -/
def smoothWindow (db : List ℚ) (w i : ℕ) : List ℚ :=
  let lo := i - (w - 1) / 2
  let hi := min (db.length - 1) (i + w / 2)
  (db.drop lo).take (hi + 1 - lo)

/-- `self.data['dB'].rolling(window=w, center=True, min_periods=1).mean()`:
centered moving average, averaging whatever samples the clipped window
still covers at the boundaries. -/
def smoothedDb (db : List ℚ) (w : ℕ) : List ℚ :=
  (List.range db.length).map
    (fun i => (smoothWindow db w i).sum / ((smoothWindow db w i).length : ℚ))

/-- `self.data['is_noise'] = self.data['dB'] >= self.threshold_db`. -/
def noiseFlags (db : List ℚ) (threshold : ℚ) : List Bool :=
  db.map (fun x => decide (threshold ≤ x))

/-- Sample variance: the square of pandas `Series.std()` (default `ddof=1`),
`none` when the result is `NaN` (fewer than two samples).  The square is
taken to stay inside `ℚ`; the standard deviation itself is its
nonnegative square root. -/
def sampleVarDb (db : List ℚ) : Option ℚ :=
  if 2 ≤ db.length then
    some (((db.map (fun x => (x - db.sum / (db.length : ℚ)) ^ 2)).sum)
      / ((db.length : ℚ) - 1))
  else none

/-- `is_rem` from `preprocess_data`: rolling std over a centered window of
60 samples (`min_periods=1`), flag set when the level is below the global
mean and the rolling std lies strictly between 1.5 and 4.  The std
comparisons are embedded through the variance (`1.5 < s < 4` iff
`9/4 < s^2 < 16` for `s ≥ 0`); a `NaN` std (window of one sample)
compares false in numpy, hence `none ↦ false`. -/
def remFlags (db : List ℚ) : List Bool :=
  let m := db.sum / (db.length : ℚ)
  (List.range db.length).map (fun i =>
    decide (db.getD i 0 < m) &&
      (match sampleVarDb (smoothWindow db 60 i) with
       | some v => decide (9 / 4 < v ∧ v < 16)
       | none => false))

/-- Result of `preprocess_data`: the three derived columns, each the same
length as the input. -/
structure Annotated where
  smoothed : List ℚ
  is_noise : List Bool
  is_rem : List Bool
deriving DecidableEq

/-- `SleepAnalyzer.preprocess_data(window_size)` over raw levels `db`. -/
def preprocessData (db : List ℚ) (threshold : ℚ) (window : ℕ) : Annotated :=
  { smoothed := smoothedDb db window
    is_noise := noiseFlags db threshold
    is_rem := remFlags db }

/-! ## Streak analysis (`calculate_statistics`, lines 139-151) -/

/-- The accumulator loop of `calculate_statistics`: walk the `is_noise`
column keeping `current_streak`, emitting the streak length on each
true-to-false edge and flushing a trailing streak at the end. -/
def consecutiveNoiseAux : List Bool → ℕ → List ℕ
  | [], streak => if 0 < streak then [streak] else []
  | b :: rest, streak =>
    if b then consecutiveNoiseAux rest (streak + 1)
    else if 0 < streak then streak :: consecutiveNoiseAux rest 0
    else consecutiveNoiseAux rest 0

/-- `consecutive_noise`: run lengths of consecutive `is_noise=true`
samples, in order of occurrence. -/
def consecutiveNoise (flags : List Bool) : List ℕ :=
  consecutiveNoiseAux flags 0

/-- Reference characterization of maximal runs of `true`, written as direct
structural recursion: skip leading `false`s, otherwise emit the length of
the maximal leading block of `true`s and continue after it. -/
def trueRuns : List Bool → List ℕ
  | [] => []
  | false :: rest => trueRuns rest
  | true :: rest =>
    ((rest.takeWhile id).length + 1) :: trueRuns (rest.dropWhile id)
termination_by l => l.length
decreasing_by
  · simp only [List.length_cons]
    omega
  · simp only [List.length_cons]
    exact Nat.lt_succ_of_le (List.dropWhile_sublist id).length_le

/-- `np.mean(consecutive_noise) * self.measurement_interval if
consecutive_noise else 0`. -/
def avgStreakSec (flags : List Bool) (interval : ℚ) : ℚ :=
  let runs := consecutiveNoise flags
  if runs = [] then 0
  else ((runs.map (fun r => (r : ℚ))).sum / (runs.length : ℚ)) * interval

/-- `max(consecutive_noise) * self.measurement_interval if
consecutive_noise else 0`. -/
def maxStreakSec (flags : List Bool) (interval : ℚ) : ℚ :=
  let runs := consecutiveNoise flags
  if runs = [] then 0 else ((runs.foldr Nat.max 0 : ℕ) : ℚ) * interval

/-! ## Scalar statistics (`calculate_statistics`, lines 132-194) -/

/-- `max()` of a pandas series; junk 0 on the empty series (where pandas
yields `NaN`, never read by the theorems). -/
def listMax : List ℚ → ℚ
  | [] => 0
  | x :: rest => rest.foldl max x

/-- `min()` of a pandas series; junk 0 on the empty series. -/
def listMin : List ℚ → ℚ
  | [] => 0
  | x :: rest => rest.foldl min x

/-- `first_hour_records = int(3600 / self.measurement_interval)` clamped by
`min(first_hour_records, total_records)`. -/
def firstHourCount (total : ℕ) (interval : ℚ) : ℕ :=
  min (Int.toNat ⌊(3600 : ℚ) / interval⌋) total

/-- `수면초반1시간_소음비율_%`: share of `is_noise=true` among the first
`firstHourCount` samples, by position. -/
def firstHourRatioPct (flags : List Bool) (total : ℕ) (interval : ℚ) : ℚ :=
  let n := firstHourCount total interval
  (((flags.take n).count true : ℚ) / (n : ℚ)) * 100

/-- `(self.data['dB'] < 30).sum()`. -/
def bandDeep (db : List ℚ) : ℕ := db.countP (fun x => decide (x < 30))

/-- `((self.data['dB'] >= 30) & (self.data['dB'] < 35)).sum()`. -/
def bandLight (db : List ℚ) : ℕ :=
  db.countP (fun x => decide (30 ≤ x ∧ x < 35))

/-- `((self.data['dB'] >= 35) & (self.data['dB'] < 40)).sum()`. -/
def bandRestless (db : List ℚ) : ℕ :=
  db.countP (fun x => decide (35 ≤ x ∧ x < 40))

/-- `(self.data['dB'] >= 40).sum()`. -/
def bandDisturbed (db : List ℚ) : ℕ :=
  db.countP (fun x => decide (40 ≤ x))

/-- The scalar contents of `self.stats` as written by
`calculate_statistics` up to line 194, i.e. everything before the hourly
loop that can raise on an empty series.  `rem` is the optional `is_rem`
column (`'is_rem' in self.data.columns`). -/
structure ScalarStats where
  total_samples : ℕ
  total_minutes : ℚ
  noise_count : ℕ
  noise_ratio_pct : ℚ
  mean_db : ℚ
  max_db : ℚ
  min_db : ℚ
  stddev_sq_db : Option ℚ
  avg_streak_sec : ℚ
  max_streak_sec : ℚ
  rem_pct : Option ℚ
  first_hour_pct : ℚ
  deep_pct : ℚ
  light_pct : ℚ
  restless_pct : ℚ
  disturbed_pct : ℚ
deriving DecidableEq

/-- Scalar part of `calculate_statistics` over levels `db`, sampling
interval `interval` and the annotated columns. -/
def scalarStats (db : List ℚ) (interval : ℚ) (flags : List Bool)
    (rem : Option (List Bool)) : ScalarStats :=
  { total_samples := db.length
    total_minutes := (db.length : ℚ) * interval / 60
    noise_count := flags.count true
    noise_ratio_pct := ((flags.count true : ℚ) / (db.length : ℚ)) * 100
    mean_db := db.sum / (db.length : ℚ)
    max_db := listMax db
    min_db := listMin db
    stddev_sq_db := sampleVarDb db
    avg_streak_sec := avgStreakSec flags interval
    max_streak_sec := maxStreakSec flags interval
    rem_pct := rem.map (fun rl => ((rl.count true : ℚ) / (db.length : ℚ)) * 100)
    first_hour_pct := firstHourRatioPct flags db.length interval
    deep_pct := ((bandDeep db : ℚ) / (db.length : ℚ)) * 100
    light_pct := ((bandLight db : ℚ) / (db.length : ℚ)) * 100
    restless_pct := ((bandRestless db : ℚ) / (db.length : ℚ)) * 100
    disturbed_pct := ((bandDisturbed db : ℚ) / (db.length : ℚ)) * 100 }

/-! ## Hourly aggregation (`calculate_statistics`, lines 196-209) -/

/-- One entry of `시간대별_품질` (`hourly_quality`). -/
structure HourBucket where
  hour : ℕ
  avg_db : ℚ
  deep_pct : ℚ
  restless_pct : ℚ
deriving DecidableEq

/-- Elapsed hours of sample `i`: `time_hours[i] = i * interval / 3600`. -/
def sampleHours (interval : ℚ) (i : ℕ) : ℚ := (i : ℚ) * interval / 3600

/-- `time_hours[-1]`, the elapsed hours of the last sample (junk 0 when
the series is empty, where the Python expression raises `IndexError`). -/
def lastSampleHours (db : List ℚ) (interval : ℚ) : ℚ :=
  sampleHours interval (db.length - 1)

/-- The samples selected by `hour_mask = (time_hours >= hour) &
(time_hours < hour + 1)`. -/
def bucketSamples (db : List ℚ) (interval : ℚ) (h : ℕ) : List ℚ :=
  ((db.enum.filter (fun p =>
    decide ((h : ℚ) ≤ sampleHours interval p.1 ∧
      sampleHours interval p.1 < (h : ℚ) + 1))).map Prod.snd)

/-- Bucket of hour `h` as the specification words it: the samples whose
floor of elapsed hours equals `h`.  Compared below with `bucketSamples`,
the half-open interval mask the code uses. -/
def floorBucket (db : List ℚ) (interval : ℚ) (h : ℕ) : List ℚ :=
  ((db.enum.filter (fun p =>
    decide (⌊sampleHours interval p.1⌋ = (h : ℤ)))).map Prod.snd)

/-- The entry appended for hour `h`: `avg_db` and the locally computed
deep/restless band percentages over that hour's samples. -/
def hourRecord (db : List ℚ) (interval : ℚ) (h : ℕ) : HourBucket :=
  let bucket := bucketSamples db interval h
  { hour := h
    avg_db := bucket.sum / (bucket.length : ℚ)
    deep_pct := ((bandDeep bucket : ℚ) / (bucket.length : ℚ)) * 100
    restless_pct := ((bandRestless bucket : ℚ) / (bucket.length : ℚ)) * 100 }

/-- The hourly loop: `for hour in range(int(np.ceil(time_hours[-1])))`,
keeping only hours whose mask selects at least one sample. -/
def hourlyQuality (db : List ℚ) (interval : ℚ) : List HourBucket :=
  (List.range (Int.toNat ⌈lastSampleHours db interval⌉)).filterMap
    (fun h =>
      if (bucketSamples db interval h).length = 0 then none
      else some (hourRecord db interval h))

/-- Failure mode of `calculate_statistics`: on an empty series the hourly
loop's `time_hours[-1]` raises an uncaught `IndexError` — but only after
the scalar statistics have already been computed and stored in
`self.stats`; the error value carries that already-written record. -/
inductive CalcError where
  | indexErrorAfterScalars (written : ScalarStats)
deriving DecidableEq

/-- `calculate_statistics` over an annotated series: writes the scalar
stats unconditionally, then either completes the hourly aggregation
(non-empty series) or raises `IndexError` at `time_hours[-1]` (empty
series), with the scalar record already stored. -/
def calculateStatistics (db : List ℚ) (interval : ℚ) (flags : List Bool)
    (rem : Option (List Bool)) : Except CalcError (ScalarStats × List HourBucket) :=
  let s := scalarStats db interval flags rem
  if db.isEmpty then .error (.indexErrorAfterScalars s)
  else .ok (s, hourlyQuality db interval)

/-! ## Condition registry and hypothesis tests (`hypothesis_test.py`) -/

/-- Per-condition analysis result stored by
`HypothesisTest.analyze_condition`: the stats record plus the optional
`폰_사용_시간_분` key added when experiment info is present. -/
structure ConditionStats where
  stats : ScalarStats
  hourly : List HourBucket
  phone_minutes : Option ℚ
deriving DecidableEq

/-- One row of the `compare_conditions` table: the fixed `key_metrics`
subset (noise ratio, mean dB, max dB, average streak seconds, first-hour
noise ratio, and phone-usage minutes when the column exists). -/
structure CompareRow where
  noise_ratio_pct : ℚ
  mean_db : ℚ
  max_db : ℚ
  avg_streak_sec : ℚ
  first_hour_pct : ℚ
  phone_minutes : Option ℚ
deriving DecidableEq

/-- `HypothesisTest.compare_conditions`: returns `None` (no table) when
fewer than two conditions are registered, otherwise the table keyed by
condition name with the fixed metric subset per row. -/
def compareConditions (reg : List (String × ConditionStats)) :
    Option (List (String × CompareRow)) :=
  if reg.length < 2 then none
  else some (reg.map (fun p =>
    (p.1,
      { noise_ratio_pct := p.2.stats.noise_ratio_pct
        mean_db := p.2.stats.mean_db
        max_db := p.2.stats.max_db
        avg_streak_sec := p.2.stats.avg_streak_sec
        first_hour_pct := p.2.stats.first_hour_pct
        phone_minutes := p.2.phone_minutes })))

/-- Outcome of the H2 two-group decision (`가설_판정`): `지지`
(supported) or `기각` (rejected). -/
inductive H2Decision where
  | supported
  | rejected
deriving DecidableEq

/-- The A/B block of `HypothesisTest.test_hypothesis2` (lines 181-201):
when conditions named exactly `"A"` and `"B"` are both registered, the
difference of noise ratios `B - A` and the threshold decision
`abs(difference) >= significance_threshold`; `none` when either name is
missing (the block is skipped). -/
def h2TwoGroup (reg : List (String × ConditionStats)) (thr : ℚ) :
    Option (ℚ × H2Decision) :=
  match reg.lookup "A", reg.lookup "B" with
  | some ca, some cb =>
    let d := cb.stats.noise_ratio_pct - ca.stats.noise_ratio_pct
    some (d, if thr ≤ |d| then .supported else .rejected)
  | _, _ => none

/-- Helper for concrete hypothesis-test inputs: a condition record whose
noise ratio is `r` and whose other fields are irrelevant to the A/B
decision. -/
def condWithNoise (r : ℚ) : ConditionStats :=
  { stats :=
      { total_samples := 0
        total_minutes := 0
        noise_count := 0
        noise_ratio_pct := r
        mean_db := 0
        max_db := 0
        min_db := 0
        stddev_sq_db := none
        avg_streak_sec := 0
        max_streak_sec := 0
        rem_pct := none
        first_hour_pct := 0
        deep_pct := 0
        light_pct := 0
        restless_pct := 0
        disturbed_pct := 0 }
    hourly := []
    phone_minutes := none }

end SleepAnalysis

/-! ## Shared lemmas -/

namespace SleepAnalysis

/-- Each decibel level falls in exactly one of the four bands. -/
lemma band_indicator (x : ℚ) :
    ((if x < 30 then 1 else 0) + (if 30 ≤ x ∧ x < 35 then 1 else 0) +
      (if 35 ≤ x ∧ x < 40 then 1 else 0) + (if 40 ≤ x then 1 else 0) : ℕ) = 1 := by
  rcases lt_or_le x 30 with h1 | h1
  · rw [if_pos h1, if_neg (fun h => absurd h.1 (not_le.2 h1)),
      if_neg (fun h => absurd h.1 (not_le.2 (h1.trans_le (by norm_num)))),
      if_neg (not_le.2 (h1.trans_le (by norm_num)))]
  · rcases lt_or_le x 35 with h2 | h2
    · rw [if_neg (not_lt.2 h1), if_pos ⟨h1, h2⟩,
        if_neg (fun h => absurd h.1 (not_le.2 h2)),
        if_neg (not_le.2 (h2.trans_le (by norm_num)))]
    · rcases lt_or_le x 40 with h3 | h3
      · rw [if_neg (not_lt.2 (le_trans (by norm_num) h2)),
          if_neg (fun h => absurd h.2 (not_lt.2 h2)), if_pos ⟨h2, h3⟩,
          if_neg (not_le.2 h3)]
      · rw [if_neg (not_lt.2 (le_trans (by norm_num) h3)),
          if_neg (fun h => absurd h.2 (not_lt.2 (le_trans (by norm_num) h3))),
          if_neg (fun h => absurd h.2 (not_lt.2 h3)), if_pos h3]

/-- The four band counters partition the series. -/
lemma bands_partition (db : List ℚ) :
    bandDeep db + bandLight db + bandRestless db + bandDisturbed db = db.length := by
  induction db with
  | nil => rfl
  | cons x xs ih =>
    simp only [bandDeep, bandLight, bandRestless, bandDisturbed, List.countP_cons,
      decide_eq_true_eq, List.length_cons] at *
    have hx := band_indicator x
    omega

end SleepAnalysis

/-! ## Claim theorems -/

namespace SleepAnalysis

/-- C1: for every non-empty series, the four sleep-stage band percentages
(`깊은수면/얕은수면/뒤척임/수면방해 비율`) computed by
`calculate_statistics` sum to exactly 100 (the bands are disjoint and
cover all rationals); over the exact rationals the floating `± 1e-6`
tolerance collapses to equality. -/
theorem band_pcts_sum_100 (db : List ℚ) (interval : ℚ) (flags : List Bool)
    (rem : Option (List Bool)) (hne : db ≠ []) :
    (scalarStats db interval flags rem).deep_pct +
      (scalarStats db interval flags rem).light_pct +
      (scalarStats db interval flags rem).restless_pct +
      (scalarStats db interval flags rem).disturbed_pct = 100 := by
  have hn : (db.length : ℚ) ≠ 0 := by
    exact_mod_cast Nat.cast_ne_zero.2 (List.length_pos.2 hne).ne'
  have key : ((bandDeep db : ℚ) + bandLight db + bandRestless db + bandDisturbed db) =
      (db.length : ℚ) := by
    exact_mod_cast congrArg (Nat.cast : ℕ → ℚ) (bands_partition db)
  simp only [scalarStats]
  field_simp
  linear_combination 100 * key

/-- Witness for C1 at the concrete series `[10, 32, 37, 45]`. -/
theorem band_pcts_sum_100_witness :
    ([(10 : ℚ), 32, 37, 45] ≠ []) ∧
      (scalarStats [(10 : ℚ), 32, 37, 45] 1 [] none).deep_pct +
        (scalarStats [(10 : ℚ), 32, 37, 45] 1 [] none).light_pct +
        (scalarStats [(10 : ℚ), 32, 37, 45] 1 [] none).restless_pct +
        (scalarStats [(10 : ℚ), 32, 37, 45] 1 [] none).disturbed_pct = 100 :=
  ⟨by simp, band_pcts_sum_100 [(10 : ℚ), 32, 37, 45] 1 [] none (by simp)⟩

end SleepAnalysis

namespace SleepAnalysis

/-- C7: smoothing preserves length (one smoothed value per input sample),
`window = 1` is the identity (`smoothed_db = level_db` at every index),
and every position's window — boundary positions included — is a
non-empty sublist of available samples (`min_periods=1`), so no edge
value is null. -/
theorem smoothing_len_id (db : List ℚ) (w : ℕ) :
    (smoothedDb db w).length = db.length ∧ smoothedDb db 1 = db ∧
      (∀ i, i < db.length → smoothWindow db w i ≠ []) := by
  refine ⟨by simp [smoothedDb], ?_, ?_⟩
  · apply List.ext_getElem
    · simp [smoothedDb]
    · intro i h1 h2
      simp only [smoothedDb, List.getElem_map, List.getElem_range]
      have hwin : smoothWindow db 1 i = [db[i]] := by
        simp only [smoothWindow]
        norm_num
        rw [min_eq_right (by omega : i ≤ db.length - 1)]
        rw [(by omega : i + 1 - i = 1), List.take_one_drop_eq_of_lt_length h2]
        simp
      rw [hwin]
      simp
  · intro i hi
    have hlen : (smoothWindow db w i).length =
        min (min (db.length - 1) (i + w / 2) + 1 - (i - (w - 1) / 2))
          (db.length - (i - (w - 1) / 2)) := by
      simp [smoothWindow, List.length_take, List.length_drop]
    have hpos : 0 < (smoothWindow db w i).length := by
      rw [hlen]; omega
    exact List.ne_nil_of_length_pos hpos

/-- Witness for C7 at series `[1, 2, 3]`, window 5 (and window 1 for the
identity part), with the window non-emptiness instantiated at index 1. -/
theorem smoothing_len_id_witness :
    (smoothedDb [(1 : ℚ), 2, 3] 5).length = 3 ∧
      smoothedDb [(1 : ℚ), 2, 3] 1 = [(1 : ℚ), 2, 3] ∧
      smoothWindow [(1 : ℚ), 2, 3] 5 1 ≠ [] :=
  ⟨by simpa using (smoothing_len_id [(1 : ℚ), 2, 3] 5).1,
   (smoothing_len_id [(1 : ℚ), 2, 3] 5).2.1,
   (smoothing_len_id [(1 : ℚ), 2, 3] 5).2.2 1 (by norm_num)⟩

/-- C10: with the default threshold 40 the noise flag `level_db >= 40`
coincides with the hard-coded disturbed band `level_db >= 40`, so
`noise_sample_count` equals the disturbed-band count and
`noise_ratio_pct` equals `disturbed_pct` for every series preprocessed at
that threshold. -/
theorem noise_eq_disturbed (db : List ℚ) (interval : ℚ) (window : ℕ)
    (rem : Option (List Bool)) :
    (scalarStats db interval (preprocessData db defaultThresholdDb window).is_noise rem).noise_count
        = bandDisturbed db ∧
      (scalarStats db interval (preprocessData db defaultThresholdDb window).is_noise rem).noise_ratio_pct
        = (scalarStats db interval (preprocessData db defaultThresholdDb window).is_noise rem).disturbed_pct := by
  have hcount : (preprocessData db defaultThresholdDb window).is_noise.count true
      = bandDisturbed db := by
    simp only [preprocessData, noiseFlags, bandDisturbed, defaultThresholdDb,
      List.count_eq_countP, List.countP_map]
    congr 1
    funext x
    simp
  refine ⟨by simpa [scalarStats] using hcount, ?_⟩
  simp only [scalarStats]
  rw [hcount]

/-- Sum of squared deviations from an arbitrary center, expanded. -/
lemma sum_sq_dev (l : List ℚ) (m : ℚ) :
    (l.map (fun x => (x - m) ^ 2)).sum
      = (l.map (fun x => x ^ 2)).sum - 2 * m * l.sum + l.length * m ^ 2 := by
  induction l with
  | nil => simp
  | cons x xs ih =>
    simp only [List.map_cons, List.sum_cons, ih, List.length_cons]
    push_cast
    ring

/-- C9: `표준편차_dB` is the sample standard deviation (pandas default
`ddof=1`), embedded through its square: for at least two samples the
squared value equals the sum of squared deviations from the mean divided
by `n - 1` (equivalently `(Σx² - n·mean²)/(n-1)`, distinguishing it
from the population divisor `n`), it is undefined (`NaN`, here `none`)
for a single-sample series, and on `[0, 2]` it is `2` where the
population variance would be `1`. -/
theorem stddev_sample_ddof1 (db : List ℚ) (interval : ℚ) (flags : List Bool)
    (rem : Option (List Bool)) :
    (db.length = 1 → (scalarStats db interval flags rem).stddev_sq_db = none) ∧
    (2 ≤ db.length →
      (scalarStats db interval flags rem).stddev_sq_db =
        some (((db.map (fun x => (x - db.sum / (db.length : ℚ)) ^ 2)).sum)
          / ((db.length : ℚ) - 1)) ∧
      (scalarStats db interval flags rem).stddev_sq_db =
        some ((((db.map (fun x => x ^ 2)).sum - (db.length : ℚ) * (db.sum / (db.length : ℚ)) ^ 2))
          / ((db.length : ℚ) - 1))) ∧
    (scalarStats [(0 : ℚ), 2] 1 [] none).stddev_sq_db = some 2 := by
  refine ⟨?_, ?_, by norm_num [scalarStats, sampleVarDb]⟩
  · intro h
    simp [scalarStats, sampleVarDb, h]
  · intro h
    have hn : (db.length : ℚ) ≠ 0 := by
      have h0 : db.length ≠ 0 := by omega
      exact_mod_cast Nat.cast_ne_zero.2 h0
    refine ⟨by simp [scalarStats, sampleVarDb, h], ?_⟩
    simp only [scalarStats, sampleVarDb, if_pos h]
    rw [sum_sq_dev]
    have key : (List.map (fun x => x ^ 2) db).sum - 2 * (db.sum / (db.length : ℚ)) * db.sum
          + (db.length : ℚ) * (db.sum / (db.length : ℚ)) ^ 2
        = (List.map (fun x => x ^ 2) db).sum - (db.length : ℚ) * (db.sum / (db.length : ℚ)) ^ 2 := by
      field_simp
      ring
    rw [key]

/-- Witness for C9 at the two-sample series `[0, 2]`. -/
theorem stddev_sample_ddof1_witness :
    2 ≤ ([(0 : ℚ), 2]).length ∧
      (scalarStats [(0 : ℚ), 2] 1 [] none).stddev_sq_db =
        some (((([(0 : ℚ), 2]).map
            (fun x => (x - ([(0 : ℚ), 2]).sum / (([(0 : ℚ), 2]).length : ℚ)) ^ 2)).sum)
          / ((([(0 : ℚ), 2]).length : ℚ) - 1)) :=
  ⟨by norm_num,
   ((stddev_sample_ddof1 [(0 : ℚ), 2] 1 [] none).2.1 (by norm_num)).1⟩

end SleepAnalysis

namespace SleepAnalysis

/-- C5: whenever conditions named exactly `"A"` and `"B"` are both
registered, the H2 block computes `difference_pct_points` as B's noise
ratio minus A's and decides `supported` exactly when the absolute
difference reaches the significance threshold; concretely, ratios
2.0 and 8.5 at the default threshold 5.0 give `+6.5 → supported`,
and 2.0 and 5.0 give `+3.0 → rejected`. -/
theorem h2_two_group_decision (reg : List (String × ConditionStats)) (thr : ℚ)
    (ca cb : ConditionStats) (hA : reg.lookup "A" = some ca)
    (hB : reg.lookup "B" = some cb) :
    h2TwoGroup reg thr =
      some (cb.stats.noise_ratio_pct - ca.stats.noise_ratio_pct,
        if thr ≤ |cb.stats.noise_ratio_pct - ca.stats.noise_ratio_pct| then H2Decision.supported
        else H2Decision.rejected) ∧
    (∀ d dec, h2TwoGroup reg thr = some (d, dec) →
      (dec = H2Decision.supported ↔ thr ≤ |d|)) ∧
    h2TwoGroup [("A", condWithNoise 2), ("B", condWithNoise (17 / 2))] defaultSignificance
      = some (13 / 2, H2Decision.supported) ∧
    h2TwoGroup [("A", condWithNoise 2), ("B", condWithNoise 5)] defaultSignificance
      = some (3, H2Decision.rejected) := by
  have hmain : h2TwoGroup reg thr =
      some (cb.stats.noise_ratio_pct - ca.stats.noise_ratio_pct,
        if thr ≤ |cb.stats.noise_ratio_pct - ca.stats.noise_ratio_pct| then H2Decision.supported
        else H2Decision.rejected) := by
    simp [h2TwoGroup, hA, hB]
  have hb : (("B" : String) == "A") = false := by decide
  refine ⟨hmain, ?_, ?_, ?_⟩
  · intro d dec hsome
    rw [hmain] at hsome
    simp only [Option.some.injEq, Prod.mk.injEq] at hsome
    obtain ⟨hd, hdec⟩ := hsome
    subst hd
    by_cases hc : thr ≤ |cb.stats.noise_ratio_pct - ca.stats.noise_ratio_pct|
    · simp [hc] at hdec
      simp [← hdec, hc]
    · simp [hc] at hdec
      simp [← hdec, hc]
  · have habs : |(13 : ℚ) / 2| = 13 / 2 := abs_of_nonneg (by norm_num)
    norm_num [h2TwoGroup, condWithNoise, defaultSignificance, List.lookup, hb, habs]
  · have habs : |(3 : ℚ)| = 3 := abs_of_nonneg (by norm_num)
    norm_num [h2TwoGroup, condWithNoise, defaultSignificance, List.lookup, hb, habs]

/-- Witness for C5 at the registry `A ↦ 2.0, B ↦ 8.5` with the default
threshold. -/
theorem h2_two_group_decision_witness :
    List.lookup "A" [("A", condWithNoise 2), ("B", condWithNoise (17 / 2))]
        = some (condWithNoise 2) ∧
      List.lookup "B" [("A", condWithNoise 2), ("B", condWithNoise (17 / 2))]
        = some (condWithNoise (17 / 2)) ∧
      h2TwoGroup [("A", condWithNoise 2), ("B", condWithNoise (17 / 2))] defaultSignificance =
        some ((condWithNoise (17 / 2)).stats.noise_ratio_pct
            - (condWithNoise 2).stats.noise_ratio_pct,
          if defaultSignificance ≤
              |(condWithNoise (17 / 2)).stats.noise_ratio_pct
                - (condWithNoise 2).stats.noise_ratio_pct| then
            H2Decision.supported
          else H2Decision.rejected) :=
  ⟨by simp [List.lookup], by simp [List.lookup],
   (h2_two_group_decision [("A", condWithNoise 2), ("B", condWithNoise (17 / 2))]
      defaultSignificance (condWithNoise 2) (condWithNoise (17 / 2))
      (by simp [List.lookup]) (by simp [List.lookup])).1⟩

/-- C8: `compare_conditions` on fewer than two registered conditions (in
particular exactly one) returns no table (`None`, a recoverable result,
not a crash); with at least two it returns the table keyed by condition
name whose rows carry the fixed metric subset. -/
theorem compare_two_required (reg : List (String × ConditionStats)) :
    (reg.length < 2 → compareConditions reg = none) ∧
    (2 ≤ reg.length → ∃ t, compareConditions reg = some t ∧
      t.map Prod.fst = reg.map Prod.fst ∧
      ∀ q ∈ reg, ((q.1,
        { noise_ratio_pct := q.2.stats.noise_ratio_pct
          mean_db := q.2.stats.mean_db
          max_db := q.2.stats.max_db
          avg_streak_sec := q.2.stats.avg_streak_sec
          first_hour_pct := q.2.stats.first_hour_pct
          phone_minutes := q.2.phone_minutes }) : String × CompareRow) ∈ t) ∧
    compareConditions [("A", condWithNoise 2)] = none := by
  refine ⟨?_, ?_, by simp [compareConditions]⟩
  · intro h
    simp [compareConditions, h]
  · intro h
    have hnot : ¬ (reg.length < 2) := by omega
    refine ⟨reg.map (fun q => (q.1,
      { noise_ratio_pct := q.2.stats.noise_ratio_pct
        mean_db := q.2.stats.mean_db
        max_db := q.2.stats.max_db
        avg_streak_sec := q.2.stats.avg_streak_sec
        first_hour_pct := q.2.stats.first_hour_pct
        phone_minutes := q.2.phone_minutes })), ?_, ?_, ?_⟩
    · simp [compareConditions, hnot]
    · rw [List.map_map]
      rfl
    · intro q hq
      exact List.mem_map_of_mem _ hq

/-- Witness for C8 at a two-condition registry. -/
theorem compare_two_required_witness :
    2 ≤ ([("A", condWithNoise 2), ("B", condWithNoise 3)]).length ∧
      ∃ t, compareConditions [("A", condWithNoise 2), ("B", condWithNoise 3)] = some t ∧
        t.map Prod.fst
            = ([("A", condWithNoise 2), ("B", condWithNoise 3)]).map Prod.fst ∧
        ∀ q ∈ [("A", condWithNoise 2), ("B", condWithNoise 3)], ((q.1,
          { noise_ratio_pct := q.2.stats.noise_ratio_pct
            mean_db := q.2.stats.mean_db
            max_db := q.2.stats.max_db
            avg_streak_sec := q.2.stats.avg_streak_sec
            first_hour_pct := q.2.stats.first_hour_pct
            phone_minutes := q.2.phone_minutes }) : String × CompareRow) ∈ t :=
  ⟨by norm_num,
   (compare_two_required [("A", condWithNoise 2), ("B", condWithNoise 3)]).2.1
     (by norm_num)⟩

/-- C3 (code bug): invoked on the empty series, `calculate_statistics`
does not reject the input upfront — it materializes a placeholder scalar
metrics record (here the written record carried by the error value, with
zero/junk entries standing for the `NaN`s numpy produces from `0/0`) and
only then fails, with an uncaught `IndexError` at `time_hours[-1]`
rather than an explicit failure result produced before computation. -/
theorem empty_series_placeholder_then_error :
    ∃ w : ScalarStats,
      calculateStatistics ([] : List ℚ) 1 [] none =
        Except.error (CalcError.indexErrorAfterScalars w) ∧
      w.total_samples = 0 ∧ w.noise_count = 0 ∧ w.noise_ratio_pct = 0 ∧
      w.avg_streak_sec = 0 ∧ w.max_streak_sec = 0 := by
  refine ⟨scalarStats [] 1 [] none, by simp [calculateStatistics], ?_, ?_, ?_, ?_, ?_⟩ <;>
    norm_num [scalarStats, avgStreakSec, maxStreakSec, consecutiveNoise,
      consecutiveNoiseAux]

end SleepAnalysis

namespace SleepAnalysis

lemma trueRuns_nil : trueRuns [] = [] := by simp [trueRuns]

lemma trueRuns_false (rest : List Bool) : trueRuns (false :: rest) = trueRuns rest := by
  simp [trueRuns]

lemma trueRuns_true (rest : List Bool) :
    trueRuns (true :: rest) = ((rest.takeWhile id).length + 1) :: trueRuns (rest.dropWhile id) := by
  simp [trueRuns]

lemma consecutiveNoiseAux_eq (flags : List Bool) : ∀ k, consecutiveNoiseAux flags k =
    if k = 0 then trueRuns flags
    else (k + (flags.takeWhile id).length) :: trueRuns (flags.dropWhile id) := by
  induction flags with
  | nil =>
    intro k
    cases k with
    | zero => simp [consecutiveNoiseAux, trueRuns_nil]
    | succ k' => simp [consecutiveNoiseAux, trueRuns_nil]
  | cons b rest ih =>
    intro k
    cases b
    · cases k with
      | zero =>
        simp [consecutiveNoiseAux, ih 0, trueRuns_false]
      | succ k' =>
        simp [consecutiveNoiseAux, ih 0, trueRuns_false, List.takeWhile_cons,
          List.dropWhile_cons]
    · cases k with
      | zero =>
        have h1 := ih 1
        simp only [consecutiveNoiseAux, if_true, if_pos rfl] at *
        rw [h1]
        simp [trueRuns_true, Nat.add_comm]
      | succ k' =>
        rw [show consecutiveNoiseAux (true :: rest) (k' + 1) = consecutiveNoiseAux rest (k' + 2)
          from by simp [consecutiveNoiseAux]]
        rw [ih (k' + 2)]
        simp [List.takeWhile_cons, List.dropWhile_cons, trueRuns_true]
        omega

end SleepAnalysis

namespace SleepAnalysis

lemma consecutiveNoise_eq_trueRuns (flags : List Bool) :
    consecutiveNoise flags = trueRuns flags := by
  simpa using consecutiveNoiseAux_eq flags 0

lemma trueRuns_all_false (flags : List Bool) (h : ∀ b ∈ flags, b = false) :
    trueRuns flags = [] := by
  induction flags with
  | nil => exact trueRuns_nil
  | cons b rest ih =>
    have hb : b = false := h b (List.mem_cons_self b rest)
    subst hb
    rw [trueRuns_false]
    exact ih (fun x hx => h x (List.mem_cons_of_mem _ hx))

lemma trueRuns_pos : ∀ n (flags : List Bool), flags.length ≤ n →
    ∀ r ∈ trueRuns flags, 1 ≤ r := by
  intro n
  induction n with
  | zero =>
    intro flags hlen r hr
    have : flags = [] := List.eq_nil_of_length_eq_zero (by omega)
    subst this
    rw [trueRuns_nil] at hr
    simp at hr
  | succ m ih =>
    intro flags hlen r hr
    match flags with
    | [] => rw [trueRuns_nil] at hr; simp at hr
    | false :: rest =>
      rw [trueRuns_false] at hr
      exact ih rest (by simp at hlen; omega) r hr
    | true :: rest =>
      rw [trueRuns_true] at hr
      rcases List.mem_cons.1 hr with h1 | h1
      · omega
      · refine ih (rest.dropWhile id) ?_ r h1
        have := (List.dropWhile_sublist (l := rest) id).length_le
        simp at hlen
        omega

lemma foldr_max_mem (l : List ℕ) : l.foldr Nat.max 0 ∈ 0 :: l := by
  induction l with
  | nil => simp
  | cons x xs ih =>
    simp only [List.foldr_cons]
    rcases max_choice x (List.foldr Nat.max 0 xs) with h | h
    · rw [show Nat.max x (List.foldr Nat.max 0 xs) = max x (List.foldr Nat.max 0 xs) from rfl, h]
      simp
    · rw [show Nat.max x (List.foldr Nat.max 0 xs) = max x (List.foldr Nat.max 0 xs) from rfl, h]
      rcases List.mem_cons.1 ih with h0 | h0
      · simp [h0]
      · simp [h0]

lemma foldr_max_le (l : List ℕ) : ∀ r ∈ l, r ≤ l.foldr Nat.max 0 := by
  induction l with
  | nil => simp
  | cons x xs ih =>
    intro r hr
    rcases List.mem_cons.1 hr with h | h
    · subst h
      exact Nat.le_max_left _ _
    · exact (ih r h).trans (Nat.le_max_right _ _)

/-- C2: the streak analysis run-length-encodes `is_noise` into the
maximal consecutive runs of `true` (the accumulator loop equals the
direct maximal-run recursion); with no noise samples both streak metrics
are 0; on a non-empty run list the max metric is the longest run (an
attained upper bound) times the interval and the avg metric is the mean
run length times the interval; and on
`[F,T,T,F,T,F,F,T,T,T]` with interval 5 the runs are `[2,1,3]`,
`max = 15`, `avg = 10`. -/
theorem streak_rle_spec (flags : List Bool) (interval : ℚ) :
    consecutiveNoise flags = trueRuns flags ∧
    ((∀ b ∈ flags, b = false) →
      avgStreakSec flags interval = 0 ∧ maxStreakSec flags interval = 0) ∧
    (consecutiveNoise flags ≠ [] →
      maxStreakSec flags interval
          = (((consecutiveNoise flags).foldr Nat.max 0 : ℕ) : ℚ) * interval ∧
      (consecutiveNoise flags).foldr Nat.max 0 ∈ consecutiveNoise flags ∧
      (∀ r ∈ consecutiveNoise flags, r ≤ (consecutiveNoise flags).foldr Nat.max 0) ∧
      avgStreakSec flags interval
          = ((((consecutiveNoise flags).map (fun r => (r : ℚ))).sum
              / ((consecutiveNoise flags).length : ℚ)) * interval)) ∧
    (consecutiveNoise [false, true, true, false, true, false, false, true, true, true]
        = [2, 1, 3] ∧
      maxStreakSec [false, true, true, false, true, false, false, true, true, true] 5 = 15 ∧
      avgStreakSec [false, true, true, false, true, false, false, true, true, true] 5 = 10) := by
  refine ⟨consecutiveNoise_eq_trueRuns flags, ?_, ?_, by decide, ?_, ?_⟩
  · intro h
    have hruns : consecutiveNoise flags = [] := by
      rw [consecutiveNoise_eq_trueRuns]
      exact trueRuns_all_false flags h
    constructor
    · simp [avgStreakSec, hruns]
    · simp [maxStreakSec, hruns]
  · intro hne
    refine ⟨by simp [maxStreakSec, hne], ?_, foldr_max_le _, by simp [avgStreakSec, hne]⟩
    rcases List.mem_cons.1 (foldr_max_mem (consecutiveNoise flags)) with h0 | h0
    · exfalso
      have hpos : ∀ r ∈ consecutiveNoise flags, 1 ≤ r := by
        rw [consecutiveNoise_eq_trueRuns]
        exact trueRuns_pos flags.length flags le_rfl
      match hr : consecutiveNoise flags with
      | [] => exact hne hr
      | r :: rs =>
        have h1 : 1 ≤ r := hpos r (by rw [hr]; exact List.mem_cons_self r rs)
        have h2 : r ≤ (r :: rs).foldr Nat.max 0 := foldr_max_le _ r (List.mem_cons_self r rs)
        rw [hr] at h0
        omega
    · exact h0
  · norm_num [maxStreakSec, consecutiveNoise, consecutiveNoiseAux]
    decide
  · norm_num [avgStreakSec, consecutiveNoise, consecutiveNoiseAux]
    decide

end SleepAnalysis

namespace SleepAnalysis

/-- Witness for C2 at the claim's concrete flag list with interval 5. -/
theorem streak_rle_spec_witness :
    consecutiveNoise [false, true, true, false, true, false, false, true, true, true] ≠ [] ∧
      maxStreakSec [false, true, true, false, true, false, false, true, true, true] 5
        = ((((consecutiveNoise
            [false, true, true, false, true, false, false, true, true, true]).foldr
              Nat.max 0 : ℕ) : ℚ)) * 5 :=
  ⟨by decide,
   ((streak_rle_spec [false, true, true, false, true, false, false, true, true, true] 5).2.2.1
      (by decide)).1⟩

end SleepAnalysis

namespace SleepAnalysis

/-- C6: for a non-empty annotated series the first-hour noise ratio is
100 times the count of `is_noise=true` among the first `n` samples over
`n`, where `n = floor(3600 / interval)` clamped to the sample count; the
value depends only on the first `n` flags (selection by position, not
wall-clock). -/
theorem first_hour_by_position (db : List ℚ) (interval : ℚ) (flags : List Bool)
    (rem : Option (List Bool)) (hne : db ≠ []) (hpos : 0 < interval) :
    (scalarStats db interval flags rem).first_hour_pct
        = 100 * (((flags.take (min (Int.toNat ⌊(3600 : ℚ) / interval⌋) db.length)).count true : ℚ))
          / ((min (Int.toNat ⌊(3600 : ℚ) / interval⌋) db.length : ℕ) : ℚ) ∧
    (∀ flags2 : List Bool,
      flags2.take (firstHourCount db.length interval)
          = flags.take (firstHourCount db.length interval) →
      firstHourRatioPct flags2 db.length interval
          = firstHourRatioPct flags db.length interval) := by
  constructor
  · simp only [scalarStats, firstHourRatioPct, firstHourCount]
    ring
  · intro flags2 h
    simp only [firstHourRatioPct]
    rw [h]

/-- Witness for C6: three samples at a 1800-second interval, so
`n = min(2, 3) = 2`. -/
theorem first_hour_by_position_witness :
    ([(50 : ℚ), 20, 30] ≠ []) ∧ (0 : ℚ) < 1800 ∧
      (scalarStats [(50 : ℚ), 20, 30] 1800 [true, false, true] none).first_hour_pct
        = 100 * ((([true, false, true].take
            (min (Int.toNat ⌊(3600 : ℚ) / 1800⌋) ([(50 : ℚ), 20, 30]).length)).count true : ℚ))
          / ((min (Int.toNat ⌊(3600 : ℚ) / 1800⌋) ([(50 : ℚ), 20, 30]).length : ℕ) : ℚ) :=
  ⟨by simp, by norm_num,
   (first_hour_by_position [(50 : ℚ), 20, 30] 1800 [true, false, true] none
      (by simp) (by norm_num)).1⟩

end SleepAnalysis

namespace SleepAnalysis

lemma hourRecord_hour (db : List ℚ) (interval : ℚ) (h : ℕ) :
    (hourRecord db interval h).hour = h := rfl

lemma bucket_eq_floorBucket (db : List ℚ) (interval : ℚ) (h : ℕ) :
    bucketSamples db interval h = floorBucket db interval h := by
  unfold bucketSamples floorBucket
  congr 1
  apply List.filter_congr
  intro p _
  simp only [decide_eq_decide]
  rw [Int.floor_eq_iff]
  push_cast
  tauto

lemma mem_hourlyQuality {db : List ℚ} {interval : ℚ} {b : HourBucket} :
    b ∈ hourlyQuality db interval ↔
      ∃ h, h < Int.toNat ⌈lastSampleHours db interval⌉ ∧
        bucketSamples db interval h ≠ [] ∧ b = hourRecord db interval h := by
  unfold hourlyQuality
  rw [List.mem_filterMap]
  constructor
  · rintro ⟨h, hmem, hf⟩
    by_cases hc : (bucketSamples db interval h).length = 0
    · simp [hc] at hf
    · rw [if_neg hc] at hf
      obtain rfl := Option.some.inj hf
      exact ⟨h, List.mem_range.1 hmem, fun hn => hc (by rw [hn]; rfl), rfl⟩
  · rintro ⟨h, hlt, hnil, rfl⟩
    refine ⟨h, List.mem_range.2 hlt, ?_⟩
    rw [if_neg (fun hc => hnil (List.length_eq_zero.1 hc))]

lemma bucket_ne_nil_iff (db : List ℚ) (interval : ℚ) (h : ℕ) :
    bucketSamples db interval h ≠ [] ↔
      ∃ i < db.length, ⌊sampleHours interval i⌋ = (h : ℤ) := by
  rw [bucket_eq_floorBucket]
  unfold floorBucket
  rw [Ne, List.map_eq_nil_iff, List.filter_eq_nil_iff]
  push_neg
  constructor
  · rintro ⟨⟨i, x⟩, hp, hdec⟩
    rw [List.mk_mem_enum_iff_getElem?] at hp
    refine ⟨i, ?_, by simpa using hdec⟩
    exact (List.getElem?_eq_some_iff.1 hp).1
  · rintro ⟨i, hi, hfl⟩
    refine ⟨(i, db.get ⟨i, hi⟩), ?_, by simpa using hfl⟩
    rw [List.mk_mem_enum_iff_getElem?]
    simp [List.getElem?_eq_getElem hi]

/-- C4 (amended): for every non-empty series with positive interval, the
code's hour mask is exactly bucketing by floor of elapsed hours; the
hourly list is strictly ordered by hour index (hence at most one entry
per hour); an entry for hour `h` exists iff `h` is below
`ceil(last elapsed hours)` and some sample falls in hour `h`; each
entry's `avg_db` and local deep/restless percentages are computed over
exactly its bucket's samples; every non-final sample's hour appears; and
the last sample's hour appears iff its elapsed time is not a whole
number of hours — so, contrary to the claim as stated, the final hour is
dropped on exact whole-hour boundaries (one-sample series included). -/
theorem hourly_agg_amended (db : List ℚ) (interval : ℚ)
    (hne : db ≠ []) (hpos : 0 < interval) :
    (∀ h : ℕ, bucketSamples db interval h = floorBucket db interval h) ∧
    List.Pairwise (fun b1 b2 : HourBucket => b1.hour < b2.hour)
      (hourlyQuality db interval) ∧
    (∀ h : ℕ, (∃ b ∈ hourlyQuality db interval, b.hour = h) ↔
      (h < Int.toNat ⌈lastSampleHours db interval⌉ ∧
        ∃ i < db.length, ⌊sampleHours interval i⌋ = (h : ℤ))) ∧
    (∀ b ∈ hourlyQuality db interval,
      b.avg_db = (floorBucket db interval b.hour).sum
          / ((floorBucket db interval b.hour).length : ℚ) ∧
      b.deep_pct = ((bandDeep (floorBucket db interval b.hour) : ℚ)
          / ((floorBucket db interval b.hour).length : ℚ)) * 100 ∧
      b.restless_pct = ((bandRestless (floorBucket db interval b.hour) : ℚ)
          / ((floorBucket db interval b.hour).length : ℚ)) * 100) ∧
    (∀ i : ℕ, i + 1 < db.length →
      ∃ b ∈ hourlyQuality db interval, (b.hour : ℤ) = ⌊sampleHours interval i⌋) ∧
    ((∃ b ∈ hourlyQuality db interval,
        (b.hour : ℤ) = ⌊lastSampleHours db interval⌋) ↔
      lastSampleHours db interval ≠ (⌊lastSampleHours db interval⌋ : ℚ)) := by
  have hhnn : ∀ i : ℕ, 0 ≤ sampleHours interval i := by
    intro i
    unfold sampleHours
    positivity
  have hmono : ∀ i j : ℕ, i < j → sampleHours interval i < sampleHours interval j := by
    intro i j hij
    unfold sampleHours
    have hq : (i : ℚ) < (j : ℚ) := by exact_mod_cast hij
    exact (div_lt_div_iff_of_pos_right (by norm_num : (0:ℚ) < 3600)).2
      (mul_lt_mul_of_pos_right hq hpos)
  refine ⟨bucket_eq_floorBucket db interval, ?_, ?_, ?_, ?_, ?_⟩
  · unfold hourlyQuality
    refine List.Pairwise.filterMap _ ?_ (List.pairwise_lt_range _)
    intro a a' haa b hb b' hb'
    by_cases hc : (bucketSamples db interval a).length = 0
    · simp [hc] at hb
    · by_cases hc' : (bucketSamples db interval a').length = 0
      · simp [hc'] at hb'
      · rw [if_neg hc] at hb
        rw [if_neg hc'] at hb'
        obtain rfl := Option.some.inj hb.symm
        obtain rfl := Option.some.inj hb'.symm
        simpa [hourRecord_hour] using haa
  · intro h
    constructor
    · rintro ⟨b, hb, rfl⟩
      obtain ⟨h', hlt, hnil, rfl⟩ := mem_hourlyQuality.1 hb
      rw [hourRecord_hour]
      exact ⟨hlt, (bucket_ne_nil_iff db interval h').1 hnil⟩
    · rintro ⟨hlt, hex⟩
      exact ⟨hourRecord db interval h,
        mem_hourlyQuality.2 ⟨h, hlt, (bucket_ne_nil_iff db interval h).2 hex, rfl⟩,
        hourRecord_hour db interval h⟩
  · intro b hb
    obtain ⟨h, hlt, hnil, rfl⟩ := mem_hourlyQuality.1 hb
    rw [hourRecord_hour]
    rw [← bucket_eq_floorBucket]
    exact ⟨rfl, rfl, rfl⟩
  · intro i hi
    set t := sampleHours interval i with ht
    have hnn : (0 : ℤ) ≤ ⌊t⌋ := Int.floor_nonneg.2 (hhnn i)
    have hflt : ⌊t⌋ < ⌈lastSampleHours db interval⌉ := by
      have h1 : (⌊t⌋ : ℚ) ≤ t := Int.floor_le t
      have h2 : t < lastSampleHours db interval := by
        unfold lastSampleHours
        exact hmono i (db.length - 1) (by omega)
      have h3 : lastSampleHours db interval ≤ (⌈lastSampleHours db interval⌉ : ℚ) :=
        Int.le_ceil _
      exact_mod_cast h1.trans_lt (h2.trans_le h3)
    have hlt : Int.toNat ⌊t⌋ < Int.toNat ⌈lastSampleHours db interval⌉ := by
      omega
    have hfl : ⌊t⌋ = ((Int.toNat ⌊t⌋ : ℕ) : ℤ) := by omega
    refine ⟨hourRecord db interval (Int.toNat ⌊t⌋),
      mem_hourlyQuality.2 ⟨Int.toNat ⌊t⌋, hlt,
        (bucket_ne_nil_iff db interval _).2 ⟨i, by omega, by rw [← ht]; exact hfl⟩, rfl⟩, ?_⟩
    rw [hourRecord_hour]
    omega
  · constructor
    · rintro ⟨b, hb, hbh⟩
      obtain ⟨h, hlt, hnil, rfl⟩ := mem_hourlyQuality.1 hb
      rw [hourRecord_hour] at hbh
      intro hint
      have hceil : ⌈lastSampleHours db interval⌉ = ⌊lastSampleHours db interval⌋ := by
        rw [hint]
        exact Int.ceil_intCast _
      rw [hceil] at hlt
      omega
    · intro hnint
      have hfc : ⌊lastSampleHours db interval⌋ < ⌈lastSampleHours db interval⌉ := by
        rcases lt_or_le ⌊lastSampleHours db interval⌋ ⌈lastSampleHours db interval⌉ with h | h
        · exact h
        · exfalso
          have hle : ⌈lastSampleHours db interval⌉ ≤ ⌊lastSampleHours db interval⌋ := h
          have h1 : lastSampleHours db interval ≤ (⌊lastSampleHours db interval⌋ : ℚ) := by
            calc lastSampleHours db interval ≤ (⌈lastSampleHours db interval⌉ : ℚ) := Int.le_ceil _
              _ ≤ (⌊lastSampleHours db interval⌋ : ℚ) := by exact_mod_cast hle
          exact hnint (le_antisymm h1 (Int.floor_le _))
      have hlen : 0 < db.length := List.length_pos.2 hne
      have hnn2 : (0 : ℤ) ≤ ⌊lastSampleHours db interval⌋ := by
        refine Int.floor_nonneg.2 ?_
        unfold lastSampleHours
        exact hhnn _
      have hlt2 : Int.toNat ⌊lastSampleHours db interval⌋
          < Int.toNat ⌈lastSampleHours db interval⌉ := by omega
      have hfl2 : ⌊sampleHours interval (db.length - 1)⌋
          = ((Int.toNat ⌊lastSampleHours db interval⌋ : ℕ) : ℤ) := by
        have hrfl : lastSampleHours db interval = sampleHours interval (db.length - 1) := rfl
        rw [← hrfl]
        omega
      refine ⟨hourRecord db interval (Int.toNat ⌊lastSampleHours db interval⌋),
        mem_hourlyQuality.2 ⟨_, hlt2,
          (bucket_ne_nil_iff db interval _).2 ⟨db.length - 1, by omega, hfl2⟩, rfl⟩, ?_⟩
      rw [hourRecord_hour]
      omega

end SleepAnalysis

namespace SleepAnalysis

/-- C4 counterexample: a one-sample series has its only sample in hour 0
(`⌊0⌋ = 0`) yet `hourly_quality` is empty — the claimed "single bucket of
a one-sample series" does not exist, because the loop runs over
`range(ceil(0)) = []`. -/
theorem hourly_one_sample_empty :
    hourlyQuality [(50 : ℚ)] 1 = [] ∧ ⌊sampleHours 1 0⌋ = 0 ∧
      (0 : ℕ) < ([(50 : ℚ)]).length := by
  refine ⟨?_, ?_, by norm_num⟩
  · norm_num [hourlyQuality, lastSampleHours, sampleHours]
  · norm_num [sampleHours]

/-- Witness for C4 (amended) at a three-sample series with a half-hour
interval. -/
theorem hourly_agg_amended_witness :
    ([(30 : ℚ), 50, 40] ≠ []) ∧ (0 : ℚ) < 1800 ∧
      ∀ h : ℕ, bucketSamples [(30 : ℚ), 50, 40] 1800 h
        = floorBucket [(30 : ℚ), 50, 40] 1800 h :=
  ⟨by simp, by norm_num,
   (hourly_agg_amended [(30 : ℚ), 50, 40] 1800 (by simp) (by norm_num)).1⟩

end SleepAnalysis
